import Mathlib

/-!
Shallow embedding of `src/app.js` (Cross & Crescent historical map) and
proofs of the specification's claims about it.

Modelling conventions:
- JS strings are lists of Unicode code points (`List Nat`).
- JS numbers are exact rationals; where the flow of non-finite values
  (NaN / ±Infinity) matters they are `Option ℚ` with `none` standing for a
  non-finite value.
- Frame-callback loops (`requestAnimationFrame`) are modelled by explicit
  recursion over the list of frame timestamps.
- The source file ends abruptly inside `makeCurvedRoute` (after `const C =`);
  the missing tail of that function and the period-change handler are
  modelled from the spec and marked as such on their definitions.
-/

namespace CC

/-- Code points of a string literal: JS strings are modelled as lists of
Unicode code points. -/
def cs (s : String) : List Nat := s.toList.map Char.toNat

/-- Whitespace code points removed by JS `String.prototype.trim` (the core
set: tab, LF, VT, FF, CR, space, NBSP). -/
def isWS (n : Nat) : Bool :=
  decide (n = 9 ∨ n = 10 ∨ n = 11 ∨ n = 12 ∨ n = 13 ∨ n = 32 ∨ n = 160)

/-- JS `String.prototype.toLowerCase` on one code point (ASCII letters; the
app's influence and category keywords are ASCII). -/
def lowerCode (n : Nat) : Nat := if 65 ≤ n ∧ n ≤ 90 then n + 32 else n

/-- JS `String.prototype.toLowerCase`. -/
def lowerL (s : List Nat) : List Nat := s.map lowerCode

/-- JS `String.prototype.trim`: drop leading and trailing whitespace. -/
def trimL (s : List Nat) : List Nat :=
  ((s.dropWhile isWS).reverse.dropWhile isWS).reverse

/-- The normalisation `String(x).trim().toLowerCase()` applied by the color
helpers of `app.js`. -/
def normL (s : List Nat) : List Nat := lowerL (trimL s)

/-- A JS number: `some q` is a finite value, `none` a non-finite one
(NaN or ±Infinity). -/
abbrev JNum := Option ℚ

/-- The JS values the app's helpers receive: numbers, strings, `null`,
`undefined`. -/
inductive JSVal where
  | num (v : JNum)
  | str (s : List Nat)
  | jsNull
  | undef
deriving DecidableEq

/-- JS truthiness: NaN, 0, the empty string, `null` and `undefined` are
falsy. -/
def truthy : JSVal → Bool
  | .num none => false
  | .num (some q) => decide (q ≠ 0)
  | .str s => decide (s ≠ [])
  | .jsNull => false
  | .undef => false

/-- JS `String(v)`. Rendering of a finite number is the parameter
`numRender` (its exact decimal form is irrelevant to every claim). -/
def jsToString (numRender : ℚ → List Nat) : JSVal → List Nat
  | .num none => cs "NaN"
  | .num (some q) => numRender q
  | .str s => s
  | .jsNull => cs "null"
  | .undef => cs "undefined"

/-- `routeColor(influence)` from `app.js` lines 87-93:
`const v = String(influence || "").trim().toLowerCase()` and then the
keyword table. -/
def routeColor (numRender : ℚ → List Nat) (influence : JSVal) : List Nat :=
  let v := normL (jsToString numRender (if truthy influence then influence else .str []))
  if v = cs "conquest" ∨ v = cs "christianity" then cs "#c53030"
  else if v = cs "culture" ∨ v = cs "cultural" then cs "#2b6cb0"
  else if v = cs "commerce" ∨ v = cs "commercial" ∨ v = cs "islam" then cs "#2f855a"
  else cs "#0b4f6c"

/-- `replaceAll` with a single-character pattern: every occurrence of code
`c` becomes the code list `r`. -/
def repAll (c : Nat) (r : List Nat) (l : List Nat) : List Nat :=
  l.flatMap (fun x => if x = c then r else [x])

/-- `escapeHtml(s)` from `app.js` lines 43-50: `String(s ?? "")` followed by
the five `replaceAll` passes, in source order (`&` first). -/
def escapeHtml (numRender : ℚ → List Nat) (s : JSVal) : List Nat :=
  let s0 := jsToString numRender (match s with | .jsNull => .str [] | .undef => .str [] | v => v)
  repAll 39 (cs "&#039;")
    (repAll 34 (cs "&quot;")
      (repAll 62 (cs "&gt;")
        (repAll 60 (cs "&lt;")
          (repAll 38 (cs "&amp;") s0))))

/-- The per-character intent of `escapeHtml`: each special character maps to
its entity, every other character to itself. -/
def escChar (x : Nat) : List Nat :=
  if x = 38 then cs "&amp;"
  else if x = 60 then cs "&lt;"
  else if x = 62 then cs "&gt;"
  else if x = 34 then cs "&quot;"
  else if x = 39 then cs "&#039;"
  else [x]

/-- Drop trailing whitespace (the second half of `trim`). -/
def rdropWS (l : List Nat) : List Nat := (l.reverse.dropWhile isWS).reverse

/-- The app's global mutable state (`app.js` lines 22-36). Map handle,
layer contents, loaded data and object table are abstract type parameters. -/
structure AppState (M L P O : Type) where
  map : M
  markersLayer : List L
  routesLayer : List L
  PERIODS : List P
  OBJECTS_BY_ID : O
  selectedMarker : Option L
  isTransitioning : Bool
  renderToken : Nat

/-- `clearLayers()` from `app.js` lines 66-70: empty both layer groups and
reset the selected marker. -/
def clearLayers {M L P O : Type} (s : AppState M L P O) : AppState M L P O :=
  { s with markersLayer := [], routesLayer := [], selectedMarker := none }

/-- `easeLinear` from `app.js` line 138. -/
def easeLinear (t : ℚ) : ℚ := t

/-- One frame of `animateStyle`'s tick (`app.js` lines 142-152):
`t = Math.min(1, (now - start) / durationMs)`, `e = easeLinear(t)`, and for
every key `k` of `to`, `cur[k] = (from[k] ?? 0) + (to[k] - (from[k] ?? 0)) * e`.
Style records are association lists keyed by `Nat`. -/
def tickStyle (start dur : ℚ) (fr tgt : List (Nat × ℚ)) (now : ℚ) : List (Nat × ℚ) :=
  let t := min 1 ((now - start) / dur)
  let e := easeLinear t
  tgt.map (fun kb => (kb.1, ((fr.lookup kb.1).getD 0) + (kb.2 - (fr.lookup kb.1).getD 0) * e))

/-- The tick loop of `animateStyle` (`app.js` lines 140-158) driven by the
list of frame timestamps: each frame applies `tickStyle` via `setStyle`;
while `t < 1` it re-arms `requestAnimationFrame`, otherwise it stops and
calls `onDone`. Returns the applied styles in order and how many times
`onDone` was invoked. -/
def animateStyle (start dur : ℚ) (fr tgt : List (Nat × ℚ)) : List ℚ → List (List (Nat × ℚ)) × Nat
  | [] => ([], 0)
  | now :: rest =>
    let cur := tickStyle start dur fr tgt now
    if min 1 ((now - start) / dur) < 1 then
      let r := animateStyle start dur fr tgt rest
      (cur :: r.1, r.2)
    else ([cur], 1)

/-- An ASCII digit code point. -/
def isDigit (n : Nat) : Bool := decide (48 ≤ n ∧ n ≤ 57)

/-- Value of a digit string. -/
def digitsVal (ds : List Nat) : Nat := ds.foldl (fun acc d => acc * 10 + (d - 48)) 0

/-- JS `parseFloat` on an already-trimmed string: optional sign, integer
digits, optional fraction, optional exponent; at least one mantissa digit
is required, trailing garbage is ignored. A literal that JS parses to
±Infinity or NaN yields `none` (such a value is non-finite, so
`toFiniteNumber` rejects it either way). -/
def parseFloatM (s : List Nat) : Option ℚ :=
  let sp : ℚ × List Nat :=
    match s with
    | 43 :: t => (1, t)
    | 45 :: t => (-1, t)
    | _ => (1, s)
  let ds1 := sp.2.takeWhile isDigit
  let r1 := sp.2.dropWhile isDigit
  let fp : List Nat × List Nat :=
    match r1 with
    | 46 :: t => (t.takeWhile isDigit, t.dropWhile isDigit)
    | _ => ([], r1)
  if ds1 = [] ∧ fp.1 = [] then none
  else
    let base : ℚ := (digitsVal ds1 : ℚ) + (digitsVal fp.1 : ℚ) / 10 ^ fp.1.length
    let ex : ℤ :=
      match fp.2 with
      | c :: t =>
        if c = 101 ∨ c = 69 then
          let esp : ℤ × List Nat :=
            match t with
            | 43 :: u => (1, u)
            | 45 :: u => (-1, u)
            | _ => (1, t)
          let eds := esp.2.takeWhile isDigit
          if eds = [] then 0 else esp.1 * (digitsVal eds : ℤ)
        else 0
      | [] => 0
    some (sp.1 * base * (10 : ℚ) ^ ex)

/-- `toFiniteNumber(v)` from `app.js` lines 191-195:
`(typeof v === "number") ? v : parseFloat(String(v).trim())`, then
`Number.isFinite(n) ? n : null`. A non-finite number input (NaN or
±Infinity) is `.num none` and is rejected. -/
def toFiniteNumber (v : JSVal) : Option ℚ :=
  match v with
  | .num (some q) => some q
  | .num none => none
  | .str s => parseFloatM (trimL s)
  | .jsNull => parseFloatM (trimL (cs "null"))
  | .undef => parseFloatM (trimL (cs "undefined"))

/-- A Leaflet `LatLng`: a pair of JS numbers, possibly non-finite. -/
structure JLatLng where
  lat : JNum
  lng : JNum
deriving DecidableEq

/-- `toLatLngSafe(lat, lng)` from `app.js` lines 197-202. -/
def toLatLngSafe (lat lng : JSVal) : Option JLatLng :=
  match toFiniteNumber lat, toFiniteNumber lng with
  | some la, some lo => some ⟨some la, some lo⟩
  | _, _ => none

/-- An event seen by the period-change handler: a new period request, or
the fade-in apply step of the request with the given index. -/
inductive SeqEvent where
  | request
  | apply (i : Nat)

/-- State of the transition sequencer: the global `renderToken`
(`app.js` line 36), the token captured by each request so far, and which
requests' rebuilt layers were actually applied. -/
structure SeqState where
  renderToken : Nat
  reqToken : List Nat
  applied : List Nat

/-- Modelled from the spec: the period-change handler (truncated out of
`src/app.js`) increments the render token and captures it
(`const myToken = ++renderToken`), and after the fade-out/rebuild it
applies (fades in) the rebuilt layers only if the captured token still
equals the latest token. -/
def seqStep (s : SeqState) : SeqEvent → SeqState
  | .request =>
    { s with renderToken := s.renderToken + 1, reqToken := s.reqToken ++ [s.renderToken + 1] }
  | .apply i =>
    if s.reqToken.get? i = some s.renderToken then { s with applied := s.applied ++ [i] } else s

/-- The sequencer run from the initial state (`renderToken = 0`, no
requests, nothing applied). -/
def seqRun (es : List SeqEvent) : SeqState := es.foldl seqStep ⟨0, [], []⟩

/-- How many period-change requests a list of events holds. -/
def reqCount : List SeqEvent → Nat
  | [] => 0
  | .request :: t => reqCount t + 1
  | .apply _ :: t => reqCount t

/-- The sequencer invariant: the render token counts the requests, and
request `i` captured token `i + 1`. -/
def InvS (s : SeqState) : Prop :=
  s.renderToken = s.reqToken.length
  ∧ ∀ i, s.reqToken.get? i = if i < s.reqToken.length then some (i + 1) else none

/-- JS addition on possibly non-finite numbers: any non-finite operand
makes the result non-finite. -/
def jadd : JNum → JNum → JNum
  | some a, some b => some (a + b)
  | _, _ => none

/-- JS subtraction. -/
def jsub : JNum → JNum → JNum
  | some a, some b => some (a - b)
  | _, _ => none

/-- JS multiplication (finite times finite may overflow to ±Infinity in JS;
that is out of this model, noted once here). -/
def jmul : JNum → JNum → JNum
  | some a, some b => some (a * b)
  | _, _ => none

/-- JS negation. -/
def jneg : JNum → JNum
  | some a => some (-a)
  | none => none

/-- JS division: division by zero gives ±Infinity or NaN, hence
non-finite. -/
def jdiv : JNum → JNum → JNum
  | some a, some b => if b = 0 then none else some (a / b)
  | _, _ => none

/-- JS `Math.min` (NaN-propagating). -/
def jmin : JNum → JNum → JNum
  | some a, some b => some (min a b)
  | _, _ => none

/-- JS `Math.max` (NaN-propagating). -/
def jmax : JNum → JNum → JNum
  | some a, some b => some (max a b)
  | _, _ => none

/-- JS `Math.sqrt`, with the square root of a nonnegative rational given by
the parameter `sqrtFn`. -/
def jsqrt (sqrtFn : ℚ → ℚ) : JNum → JNum
  | some q => if q < 0 then none else some (sqrtFn q)
  | none => none

/-- The `|| 1` on `len` (`app.js` line 227): `0 || 1` and `NaN || 1` are 1.
(JS `Infinity || 1` keeps Infinity; both ways the control point ends up
non-finite, see `jControlPoint_nonfinite`.) -/
def jor1 : JNum → JNum
  | none => some 1
  | some q => if q = 0 then some 1 else some q

/-- A Leaflet layer point: a pair of JS numbers. -/
structure JPoint where
  x : JNum
  y : JNum
deriving DecidableEq

/-- The screen-space control point computed by `makeCurvedRoute`
(`app.js` lines 224-236): midpoint, perpendicular unit vector, clamped
bend, offset control point. -/
def jControlPoint (sqrtFn : ℚ → ℚ) (pA pB : JPoint) : JPoint :=
  let midx := jdiv (jadd pA.x pB.x) (some 2)
  let midy := jdiv (jadd pA.y pB.y) (some 2)
  let dx := jsub pB.x pA.x
  let dy := jsub pB.y pA.y
  let len := jor1 (jsqrt sqrtFn (jadd (jmul dx dx) (jmul dy dy)))
  let ux := jdiv (jneg dy) len
  let uy := jdiv dx len
  let bend := jmin (some 120) (jmax (some 40) (jmul len (some (15/100))))
  ⟨jadd midx (jmul ux bend), jadd midy (jmul uy bend)⟩

/-- `map.layerPointToLatLng(controlPoint)` applied to the computed control
point (`app.js` line 237), with the projection abstract. -/
def controlOf (unproject : JPoint → JLatLng) (sqrtFn : ℚ → ℚ) (pA pB : JPoint) : JLatLng :=
  unproject (jControlPoint sqrtFn pA pB)

/-- Both coordinates of a LatLng are finite. -/
def finLL (ll : JLatLng) : Bool := ll.lat.isSome && ll.lng.isSome

/-- What `makeCurvedRoute` returns: a straight `L.polyline` through the two
endpoints, or an `L.curve` quadratic through (A, control, B). -/
inductive RouteShape (σ : Type) where
  | straight (a b : JLatLng) (st : σ)
  | curved (a c b : JLatLng) (st : σ)

/-- `makeCurvedRoute(fromLatLng, toLatLng, style)` from `app.js` lines
206-241. The guards in source order: no curve plugin or map not loaded;
projection failure (`!pA || !pB || typeof pA.x !== "number"`, modelled as
`project` returning `none`); then — modelled from the spec, the tail of the
function is truncated out of `src/app.js` — a straight-line fallback when
any coordinate of A, B or the control point is non-finite, else the curve
through (A, control, B). -/
def makeCurvedRoute {σ : Type} (hasCurve mapLoaded : Bool)
    (project : JLatLng → Option JPoint) (unproject : JPoint → JLatLng)
    (sqrtFn : ℚ → ℚ) (fromLL toLL : JLatLng) (style : σ) : RouteShape σ :=
  if !hasCurve || !mapLoaded then .straight fromLL toLL style
  else
    match project fromLL, project toLL with
    | some pA, some pB =>
      let cl := controlOf unproject sqrtFn pA pB
      if finLL fromLL && finLL toLL && finLL cl then .curved fromLL cl toLL style
      else .straight fromLL toLL style
    | _, _ => .straight fromLL toLL style

/-- A screen point with both coordinates finite, for the exact geometry of
the curve construction. -/
structure QPoint where
  x : ℚ
  y : ℚ
deriving DecidableEq

/-- `len = Math.sqrt(dx*dx + dy*dy) || 1` (`app.js` line 227), on finite
points. -/
def lenOf (sqrtFn : ℚ → ℚ) (pA pB : QPoint) : ℚ :=
  let d := sqrtFn ((pB.x - pA.x) * (pB.x - pA.x) + (pB.y - pA.y) * (pB.y - pA.y))
  if d = 0 then 1 else d

/-- `bend = Math.min(120, Math.max(40, len * 0.15))` (`app.js` line 234). -/
def bendOf (sqrtFn : ℚ → ℚ) (pA pB : QPoint) : ℚ :=
  min 120 (max 40 (lenOf sqrtFn pA pB * (15 / 100)))

/-- The control point `L.point(mid.x + ux * bend, mid.y + uy * bend)`
(`app.js` lines 229-236), on finite points. -/
def controlPt (sqrtFn : ℚ → ℚ) (pA pB : QPoint) : QPoint :=
  let len := lenOf sqrtFn pA pB
  let bend := bendOf sqrtFn pA pB
  let ux := -(pB.y - pA.y) / len
  let uy := (pB.x - pA.x) / len
  ⟨(pA.x + pB.x) / 2 + ux * bend, (pA.y + pB.y) / 2 + uy * bend⟩

theorem lowerCode_lowerCode (n : Nat) : lowerCode (lowerCode n) = lowerCode n := by
  unfold lowerCode
  split_ifs <;> omega

theorem isWS_lowerCode (n : Nat) : isWS (lowerCode n) = isWS n := by
  unfold lowerCode isWS
  split_ifs with h
  · simp only [decide_eq_decide]
    omega
  · rfl

theorem lowerL_lowerL (l : List Nat) : lowerL (lowerL l) = lowerL l := by
  unfold lowerL
  rw [List.map_map]
  congr 1
  funext n
  exact lowerCode_lowerCode n

theorem dropWhile_lowerL (l : List Nat) :
    List.dropWhile isWS (lowerL l) = lowerL (List.dropWhile isWS l) := by
  unfold lowerL
  rw [List.dropWhile_map]
  have h : (isWS ∘ lowerCode) = isWS := funext isWS_lowerCode
  rw [h]

theorem lowerL_reverse (l : List Nat) : lowerL l.reverse = (lowerL l).reverse :=
  List.map_reverse lowerCode l

theorem dropWhile_dropWhile {α : Type} (p : α → Bool) (l : List α) :
    (l.dropWhile p).dropWhile p = l.dropWhile p := by
  induction l with
  | nil => rfl
  | cons a t ih =>
    rw [List.dropWhile_cons]
    split_ifs with h
    · exact ih
    · rw [List.dropWhile_cons, if_neg h]

theorem rdropWS_cons (a : Nat) (t : List Nat) :
    rdropWS (a :: t) =
      if (rdropWS t).isEmpty then List.dropWhile isWS [a] else a :: rdropWS t := by
  unfold rdropWS
  rw [List.reverse_cons, List.dropWhile_append]
  have hemp : (t.reverse.dropWhile isWS).reverse.isEmpty = (t.reverse.dropWhile isWS).isEmpty := by
    cases h : t.reverse.dropWhile isWS <;> simp [h]
  rw [hemp]
  split_ifs with h
  · cases hws : isWS a <;> simp [List.dropWhile_cons, hws]
  · rw [List.reverse_append]
    rfl

theorem dropWhile_rdropWS (l : List Nat) :
    List.dropWhile isWS (rdropWS l) = rdropWS (List.dropWhile isWS l) := by
  induction l with
  | nil => rfl
  | cons a t ih =>
    by_cases h0 : rdropWS t = []
    · have hall : ∀ x ∈ t, isWS x = true := by
        intro x hx
        have hnil : t.reverse.dropWhile isWS = [] := by
          have := congrArg List.reverse h0
          rwa [rdropWS, List.reverse_reverse, List.reverse_nil] at this
        exact List.dropWhile_eq_nil_iff.mp hnil x (List.mem_reverse.mpr hx)
      have hdt : List.dropWhile isWS t = [] := List.dropWhile_eq_nil_iff.mpr hall
      have he : (rdropWS t).isEmpty = true := by rw [h0]; rfl
      rw [rdropWS_cons, if_pos he]
      cases hws : isWS a with
      | true =>
        have hDa : List.dropWhile isWS [a] = [] := by
          rw [List.dropWhile_cons, if_pos hws]; rfl
        rw [hDa, List.dropWhile_cons, if_pos hws, hdt]
        rfl
      | false =>
        have hDa : List.dropWhile isWS [a] = [a] := by
          rw [List.dropWhile_cons, if_neg (by simp [hws])]
        rw [hDa, hDa, List.dropWhile_cons, if_neg (by simp [hws]), rdropWS_cons, if_pos he, hDa]
    · have he : ¬(rdropWS t).isEmpty = true := by
        intro h
        exact h0 (List.isEmpty_iff.mp h)
      rw [rdropWS_cons, if_neg he, List.dropWhile_cons, List.dropWhile_cons]
      cases hws : isWS a with
      | true =>
        rw [if_pos rfl, if_pos rfl]
        exact ih
      | false =>
        rw [if_neg (by simp), if_neg (by simp)]
        rw [rdropWS_cons, if_neg he]

theorem rdropWS_rdropWS (l : List Nat) : rdropWS (rdropWS l) = rdropWS l := by
  unfold rdropWS
  rw [List.reverse_reverse, dropWhile_dropWhile]

theorem trimL_eq (l : List Nat) : trimL l = rdropWS (List.dropWhile isWS l) := rfl

theorem trimL_trimL (l : List Nat) : trimL (trimL l) = trimL l := by
  rw [trimL_eq, trimL_eq, dropWhile_rdropWS, dropWhile_dropWhile, rdropWS_rdropWS]

theorem trimL_lowerL (l : List Nat) : trimL (lowerL l) = lowerL (trimL l) := by
  unfold trimL
  rw [dropWhile_lowerL, ← lowerL_reverse, dropWhile_lowerL, ← lowerL_reverse]

theorem normL_normL (l : List Nat) : normL (normL l) = normL l := by
  unfold normL
  rw [trimL_lowerL, trimL_trimL, lowerL_lowerL]

theorem jsToString_coalesce (nr : ℚ → List Nat) (u : List Nat) :
    jsToString nr (if truthy (.str u) then JSVal.str u else .str []) = u := by
  by_cases hu : u = []
  · subst hu; rfl
  · simp [truthy, hu, jsToString]

/-- C8: `routeColor` is total and invariant under trim/lower-case
normalisation of its input; it maps the conquest/christianity keywords to
red `#c53030`, culture/cultural to blue `#2b6cb0`,
commerce/commercial/islam to green `#2f855a`, and everything else —
`null`, `undefined` and the empty string included — to the fallback teal
`#0b4f6c`. -/
theorem routeColor_total_normalized :
    ∀ numRender : ℚ → List Nat,
      (∀ s, routeColor numRender (.str s) = routeColor numRender (.str (normL s)))
      ∧ routeColor numRender (.str (cs "conquest")) = cs "#c53030"
      ∧ routeColor numRender (.str (cs "christianity")) = cs "#c53030"
      ∧ routeColor numRender (.str (cs "culture")) = cs "#2b6cb0"
      ∧ routeColor numRender (.str (cs "cultural")) = cs "#2b6cb0"
      ∧ routeColor numRender (.str (cs "commerce")) = cs "#2f855a"
      ∧ routeColor numRender (.str (cs "commercial")) = cs "#2f855a"
      ∧ routeColor numRender (.str (cs "islam")) = cs "#2f855a"
      ∧ routeColor numRender .jsNull = cs "#0b4f6c"
      ∧ routeColor numRender .undef = cs "#0b4f6c"
      ∧ routeColor numRender (.str []) = cs "#0b4f6c"
      ∧ (∀ s, normL s ≠ cs "conquest" → normL s ≠ cs "christianity" →
          normL s ≠ cs "culture" → normL s ≠ cs "cultural" →
          normL s ≠ cs "commerce" → normL s ≠ cs "commercial" →
          normL s ≠ cs "islam" →
          routeColor numRender (.str s) = cs "#0b4f6c") := by
  intro nr
  refine ⟨?_, rfl, rfl, rfl, rfl, rfl, rfl, rfl, rfl, rfl, rfl, ?_⟩
  · intro s
    simp only [routeColor, jsToString_coalesce, normL_normL]
  · intro s h1 h2 h3 h4 h5 h6 h7
    simp only [routeColor, jsToString_coalesce]
    rw [if_neg (by simp [h1, h2]), if_neg (by simp [h3, h4]),
      if_neg (by simp [h5, h6, h7])]

theorem repAll_append (c : Nat) (r l1 l2 : List Nat) :
    repAll c r (l1 ++ l2) = repAll c r l1 ++ repAll c r l2 := by
  unfold repAll
  rw [List.flatMap_append]

theorem escChar_eval (a : Nat) :
    repAll 39 (cs "&#039;") (repAll 34 (cs "&quot;") (repAll 62 (cs "&gt;")
      (repAll 60 (cs "&lt;") (repAll 38 (cs "&amp;") [a])))) = escChar a := by
  by_cases h38 : a = 38
  · subst h38; rfl
  by_cases h60 : a = 60
  · subst h60; rfl
  by_cases h62 : a = 62
  · subst h62; rfl
  by_cases h34 : a = 34
  · subst h34; rfl
  by_cases h39 : a = 39
  · subst h39; rfl
  simp [repAll, escChar, h38, h60, h62, h34, h39]

theorem escape_chain_flatMap (s : List Nat) :
    repAll 39 (cs "&#039;") (repAll 34 (cs "&quot;") (repAll 62 (cs "&gt;")
      (repAll 60 (cs "&lt;") (repAll 38 (cs "&amp;") s)))) = s.flatMap escChar := by
  induction s with
  | nil => rfl
  | cons a t ih =>
    rw [show a :: t = [a] ++ t from rfl]
    simp only [repAll_append]
    rw [escChar_eval, ih, List.flatMap_append]
    simp

theorem escChar_no_raw (x : Nat) :
    60 ∉ escChar x ∧ 62 ∉ escChar x ∧ 34 ∉ escChar x ∧ 39 ∉ escChar x := by
  unfold escChar
  split_ifs with h1 h2 h3 h4 h5
  · decide
  · decide
  · decide
  · decide
  · decide
  · refine ⟨?_, ?_, ?_, ?_⟩ <;> simp only [List.mem_singleton] <;> omega

theorem no_raw_flatMap (l : List Nat) :
    60 ∉ l.flatMap escChar ∧ 62 ∉ l.flatMap escChar
    ∧ 34 ∉ l.flatMap escChar ∧ 39 ∉ l.flatMap escChar := by
  refine ⟨?_, ?_, ?_, ?_⟩ <;> intro hmem <;> rw [List.mem_flatMap] at hmem <;>
    obtain ⟨a, _, ha⟩ := hmem
  · exact (escChar_no_raw a).1 ha
  · exact (escChar_no_raw a).2.1 ha
  · exact (escChar_no_raw a).2.2.1 ha
  · exact (escChar_no_raw a).2.2.2 ha

/-- C9: `escapeHtml` replaces every occurrence of the characters
`&ltgt"'` by its HTML entity (the sequential passes, `&` first, equal the
intended one-pass per-character map `escChar`), maps `null` and
`undefined` to the empty string, and its output contains no raw `<`, `>`,
double-quote or single-quote code point. -/
theorem escapeHtml_escapes :
    ∀ numRender : ℚ → List Nat,
      escapeHtml numRender .jsNull = [] ∧ escapeHtml numRender .undef = []
      ∧ (∀ s, escapeHtml numRender (.str s) = s.flatMap escChar)
      ∧ (∀ v, 60 ∉ escapeHtml numRender v ∧ 62 ∉ escapeHtml numRender v
          ∧ 34 ∉ escapeHtml numRender v ∧ 39 ∉ escapeHtml numRender v) := by
  intro nr
  refine ⟨rfl, rfl, ?_, ?_⟩
  · intro s
    exact escape_chain_flatMap s
  · intro v
    have h : escapeHtml nr v =
        (jsToString nr (match v with
          | .jsNull => JSVal.str [] | .undef => .str [] | u => u)).flatMap escChar := by
      cases v <;> exact escape_chain_flatMap _
    rw [h]
    exact no_raw_flatMap _

theorem tickStyle_done (start dur now : ℚ) (fr tgt : List (Nat × ℚ))
    (hdur : 0 < dur) (hreach : start + dur ≤ now) :
    tickStyle start dur fr tgt now = tgt := by
  have ht : min 1 ((now - start) / dur) = 1 := by
    have h1 : (1 : ℚ) ≤ (now - start) / dur := by
      rw [le_div_iff hdur]
      linarith
    exact min_eq_left h1
  unfold tickStyle easeLinear
  rw [ht]
  induction tgt with
  | nil => rfl
  | cons kb t ih =>
    rw [List.map_cons, ih]
    congr 1
    rw [Prod.mk.injEq]
    exact ⟨rfl, by ring⟩

/-- C2: at any animation frame whose elapsed time has reached the duration,
the style `animateStyle`'s tick applies to the layer is exactly the target
record: every key of `to` gets exactly its target value
(`a + (b - a) * 1 = b` at `t = 1`). -/
theorem animateStyle_exact_at_end (start dur now : ℚ) (fr tgt : List (Nat × ℚ))
    (hdur : 0 < dur) (hreach : start + dur ≤ now) :
    tickStyle start dur fr tgt now = tgt :=
  tickStyle_done start dur now fr tgt hdur hreach

/-- Witness for C2 at a concrete input. -/
theorem animateStyle_exact_at_end_witness :
    tickStyle 0 300 [(0, 1/2)] [(0, 1), (1, 7)] 300 = [(0, 1), (1, 7)] :=
  animateStyle_exact_at_end 0 300 300 [(0, 1/2)] [(0, 1), (1, 7)]
    (by norm_num) (by norm_num)

/-- C7: the tick loop of `animateStyle` never stops early: with a positive
duration and frame timestamps that eventually reach `start + duration`, it
ticks exactly once per frame strictly before the deadline plus one final
frame, applies the exact target style last, and invokes `onDone` exactly
once. (No token or cancellation input exists in `animateStyle`.) -/
theorem animateStyle_runs_to_completion (start dur : ℚ) (fr tgt : List (Nat × ℚ))
    (times : List ℚ) (hdur : 0 < dur) (hreach : ∃ n ∈ times, start + dur ≤ n) :
    (animateStyle start dur fr tgt times).2 = 1
    ∧ (animateStyle start dur fr tgt times).1.getLast? = some tgt
    ∧ (animateStyle start dur fr tgt times).1.length
        = (times.takeWhile (fun n => decide (n < start + dur))).length + 1 := by
  induction times with
  | nil =>
    obtain ⟨n, hn, _⟩ := hreach
    exact absurd hn (List.not_mem_nil n)
  | cons now rest ih =>
    by_cases hnow : now < start + dur
    · have hc : min 1 ((now - start) / dur) < 1 := by
        apply min_lt_iff.mpr
        right
        rw [div_lt_one hdur]
        linarith
      have hreach2 : ∃ n ∈ rest, start + dur ≤ n := by
        obtain ⟨n, hn, hsd⟩ := hreach
        rcases List.mem_cons.mp hn with h | h
        · subst h; linarith
        · exact ⟨n, h, hsd⟩
      obtain ⟨ih1, ih2, ih3⟩ := ih hreach2
      have hne : (animateStyle start dur fr tgt rest).1 ≠ [] := by
        intro h
        rw [h] at ih3
        simp at ih3
      have hstep1 : (animateStyle start dur fr tgt (now :: rest)).1
          = tickStyle start dur fr tgt now :: (animateStyle start dur fr tgt rest).1 := by
        simp only [animateStyle, if_pos hc]
      have hstep2 : (animateStyle start dur fr tgt (now :: rest)).2
          = (animateStyle start dur fr tgt rest).2 := by
        simp only [animateStyle, if_pos hc]
      refine ⟨by rw [hstep2]; exact ih1, ?_, ?_⟩
      · rw [hstep1]
        cases hr : (animateStyle start dur fr tgt rest).1 with
        | nil => exact absurd hr hne
        | cons a l =>
          rw [hr] at ih2
          rw [List.getLast?_cons_cons]
          exact ih2
      · rw [hstep1, List.length_cons, ih3, List.takeWhile_cons,
          if_pos (decide_eq_true hnow), List.length_cons]
    · push_neg at hnow
      have hc : ¬ min 1 ((now - start) / dur) < 1 := by
        rw [not_lt]
        refine le_min le_rfl ?_
        rw [le_div_iff hdur]
        linarith
      have hstep1 : (animateStyle start dur fr tgt (now :: rest)).1
          = [tickStyle start dur fr tgt now] := by
        simp only [animateStyle, if_neg hc]
      have hstep2 : (animateStyle start dur fr tgt (now :: rest)).2 = 1 := by
        simp only [animateStyle, if_neg hc]
      refine ⟨hstep2, ?_, ?_⟩
      · rw [hstep1, List.getLast?_singleton, tickStyle_done start dur now fr tgt hdur hnow]
      · rw [hstep1, List.takeWhile_cons, if_neg (by simp [not_lt.mpr hnow])]
        rfl

/-- Witness for C7 at a concrete input: two frames, the second past the
deadline. -/
theorem animateStyle_runs_to_completion_witness :
    (animateStyle 0 100 [(0, 0)] [(0, 1)] [50, 120]).2 = 1
    ∧ (animateStyle 0 100 [(0, 0)] [(0, 1)] [50, 120]).1.getLast? = some [(0, 1)]
    ∧ (animateStyle 0 100 [(0, 0)] [(0, 1)] [50, 120]).1.length
        = ([50, 120].takeWhile (fun n => decide (n < (0:ℚ) + 100))).length + 1 :=
  animateStyle_runs_to_completion 0 100 [(0, 0)] [(0, 1)] [50, 120]
    (by norm_num) ⟨120, by norm_num, by norm_num⟩

/-- C6: `toLatLngSafe` returns `null` exactly when either component fails
`toFiniteNumber` (so for NaN, Infinity, `null` and the empty string among
others), and otherwise it returns the LatLng of the two parsed finite
values — a LatLng with a non-finite coordinate is never produced. -/
theorem toLatLngSafe_safe :
    ∀ lat lng : JSVal,
      (toLatLngSafe lat lng = none ↔
        toFiniteNumber lat = none ∨ toFiniteNumber lng = none)
      ∧ (∀ ll, toLatLngSafe lat lng = some ll →
          ll.lat = toFiniteNumber lat ∧ ll.lng = toFiniteNumber lng
          ∧ ll.lat ≠ none ∧ ll.lng ≠ none)
      ∧ toLatLngSafe (.str []) lng = none
      ∧ toLatLngSafe lat (.str []) = none
      ∧ toLatLngSafe .jsNull lng = none
      ∧ toLatLngSafe lat .jsNull = none
      ∧ toLatLngSafe (.num none) lng = none
      ∧ toLatLngSafe lat (.num none) = none
      ∧ toLatLngSafe (.str (cs "NaN")) lng = none
      ∧ toLatLngSafe (.str (cs "Infinity")) lng = none := by
  intro lat lng
  have hnone2 : ∀ v w : JSVal, toFiniteNumber w = none → toLatLngSafe v w = none := by
    intro v w hw
    unfold toLatLngSafe
    rw [hw]
    cases toFiniteNumber v <;> rfl
  have hstr : toFiniteNumber (.str []) = none := rfl
  have hnull : toFiniteNumber .jsNull = none := rfl
  have hnan : toFiniteNumber (.num none) = none := rfl
  refine ⟨?_, ?_, rfl, hnone2 lat _ hstr, rfl, hnone2 lat _ hnull, rfl,
    hnone2 lat _ hnan, rfl, rfl⟩
  · unfold toLatLngSafe
    cases hla : toFiniteNumber lat <;> cases hlo : toFiniteNumber lng <;> simp
  · intro ll hll
    unfold toLatLngSafe at hll
    cases hla : toFiniteNumber lat with
    | none => rw [hla] at hll; cases toFiniteNumber lng <;> simp at hll
    | some la =>
      cases hlo : toFiniteNumber lng with
      | none => rw [hla, hlo] at hll; simp at hll
      | some lo =>
        rw [hla, hlo] at hll
        have := Option.some.inj hll
        subst this
        exact ⟨rfl, rfl, by simp, by simp⟩

theorem invS_step (s : SeqState) (e : SeqEvent) (h : InvS s) : InvS (seqStep s e) := by
  obtain ⟨h1, h2⟩ := h
  cases e with
  | request =>
    refine ⟨?_, ?_⟩
    · simp only [seqStep, List.length_append, List.length_cons, List.length_nil]
      omega
    · intro i
      simp only [seqStep, List.length_append, List.length_cons, List.length_nil]
      by_cases hi : i < s.reqToken.length
      · rw [List.get?_append hi, h2 i, if_pos hi, if_pos (by omega)]
      · by_cases hieq : i = s.reqToken.length
        · subst hieq
          rw [h1, List.get?_concat_length, if_pos (by omega)]
        · rw [List.get?_eq_none.mpr (by simp; omega), if_neg (by omega)]
  | apply i =>
    simp only [seqStep]
    split_ifs with hg
    · exact ⟨h1, h2⟩
    · exact ⟨h1, h2⟩

theorem invS_run (es : List SeqEvent) : ∀ s, InvS s → InvS (es.foldl seqStep s) := by
  induction es with
  | nil => intro s h; exact h
  | cons e t ih => intro s h; exact ih _ (invS_step s e h)

theorem reqToken_apply (s : SeqState) (i : Nat) :
    (seqStep s (.apply i)).reqToken = s.reqToken := by
  simp only [seqStep]
  split_ifs <;> rfl

theorem length_run (es : List SeqEvent) :
    ∀ s, (es.foldl seqStep s).reqToken.length = s.reqToken.length + reqCount es := by
  induction es with
  | nil => intro s; rfl
  | cons e t ih =>
    intro s
    rw [List.foldl_cons, ih]
    cases e with
    | request =>
      simp only [seqStep, reqCount, List.length_append, List.length_cons, List.length_nil]
      omega
    | apply i =>
      rw [reqToken_apply]
      simp only [reqCount]

/-- C3: each period-change request increments the render token; the
fade-in applies rebuilt layers only when the request's captured token
still equals the current token; hence a request that another request has
superseded before its apply step never applies its layers. -/
theorem renderToken_guards_stale :
    (∀ s : SeqState, (seqStep s .request).renderToken = s.renderToken + 1)
    ∧ (∀ (s : SeqState) (i : Nat),
        (seqStep s (.apply i)).applied ≠ s.applied →
        s.reqToken.get? i = some s.renderToken)
    ∧ (∀ (pfx : List SeqEvent) (i : Nat), i + 1 < reqCount pfx →
        (seqRun (pfx ++ [.apply i])).applied = (seqRun pfx).applied) := by
  refine ⟨fun s => rfl, ?_, ?_⟩
  · intro s i h
    simp only [seqStep] at h
    split_ifs at h with hg
    · exact hg
    · exact absurd rfl h
  · intro pfx i hi
    have hinv : InvS (seqRun pfx) :=
      invS_run pfx ⟨0, [], []⟩ ⟨rfl, by intro j; simp⟩
    have hlen : (seqRun pfx).reqToken.length = reqCount pfx := by
      have h := length_run pfx ⟨0, [], []⟩
      simpa [seqRun] using h
    obtain ⟨h1, h2⟩ := hinv
    have hguard : ¬((seqRun pfx).reqToken.get? i = some (seqRun pfx).renderToken) := by
      rw [h2 i, h1, hlen, if_pos (by omega)]
      intro hc
      have := Option.some.inj hc
      omega
    have hrun : seqRun (pfx ++ [.apply i]) = seqStep (seqRun pfx) (.apply i) := by
      unfold seqRun
      rw [List.foldl_append]
      rfl
    rw [hrun]
    simp only [seqStep]
    rw [if_neg hguard]

/-- C10: `clearLayers` empties both layer groups and resets the selected
marker, and leaves every other component of the app state (map handle,
loaded periods and objects, render token, transition flag) unchanged. -/
theorem clearLayers_frame :
    ∀ (M L P O : Type) (s : AppState M L P O),
      (clearLayers s).markersLayer = [] ∧ (clearLayers s).routesLayer = []
      ∧ (clearLayers s).selectedMarker = none
      ∧ (clearLayers s).map = s.map
      ∧ (clearLayers s).PERIODS = s.PERIODS
      ∧ (clearLayers s).OBJECTS_BY_ID = s.OBJECTS_BY_ID
      ∧ (clearLayers s).renderToken = s.renderToken
      ∧ (clearLayers s).isTransitioning = s.isTransitioning := by
  intro M L P O s
  exact ⟨rfl, rfl, rfl, rfl, rfl, rfl, rfl, rfl⟩

theorem jadd_none_left (b : JNum) : jadd none b = none := rfl

theorem jadd_none_right (a : JNum) : jadd a none = none := by cases a <;> rfl

theorem jdiv_none_left (b : JNum) : jdiv none b = none := rfl

theorem jmul_none_left (b : JNum) : jmul none b = none := rfl

theorem jControlPoint_nonfinite (sqrtFn : ℚ → ℚ) (pA pB : JPoint)
    (h : pA.x = none ∨ pA.y = none ∨ pB.x = none ∨ pB.y = none) :
    (jControlPoint sqrtFn pA pB).x = none ∨ (jControlPoint sqrtFn pA pB).y = none := by
  rcases h with h | h | h | h
  · left
    simp only [jControlPoint, h, jadd_none_left, jdiv_none_left]
  · right
    simp only [jControlPoint, h, jadd_none_left, jdiv_none_left]
  · left
    simp only [jControlPoint, h, jadd_none_right, jdiv_none_left, jadd_none_left]
  · right
    simp only [jControlPoint, h, jadd_none_right, jdiv_none_left, jadd_none_left]

/-- C1: `makeCurvedRoute` returns the straight polyline between the two
endpoints exactly when the curve plugin is missing, or the map is not
loaded, or the projection fails, or some coordinate of A, B or the
computed control point is non-finite; in particular, when the projection
respects non-finiteness, a non-finite projected endpoint always takes the
straight-line fallback. -/
theorem makeCurvedRoute_fallback :
    ∀ (σ : Type) (hasCurve mapLoaded : Bool) (project : JLatLng → Option JPoint)
      (unproject : JPoint → JLatLng) (sqrtFn : ℚ → ℚ)
      (fromLL toLL : JLatLng) (style : σ),
      (makeCurvedRoute hasCurve mapLoaded project unproject sqrtFn fromLL toLL style
          = RouteShape.straight fromLL toLL style
        ↔ hasCurve = false ∨ mapLoaded = false
          ∨ project fromLL = none ∨ project toLL = none
          ∨ ∃ pA pB, project fromLL = some pA ∧ project toLL = some pB
              ∧ (finLL fromLL && finLL toLL
                  && finLL (controlOf unproject sqrtFn pA pB)) = false)
      ∧ ((∀ p : JPoint, p.x = none ∨ p.y = none → finLL (unproject p) = false) →
          ∀ pA pB, project fromLL = some pA → project toLL = some pB →
            (pA.x = none ∨ pA.y = none ∨ pB.x = none ∨ pB.y = none) →
            makeCurvedRoute hasCurve mapLoaded project unproject sqrtFn fromLL toLL style
              = RouteShape.straight fromLL toLL style) := by
  intro σ hasCurve mapLoaded project unproject sqrtFn fromLL toLL style
  constructor
  · cases hasCurve with
    | false => simp [makeCurvedRoute]
    | true =>
      cases mapLoaded with
      | false => simp [makeCurvedRoute]
      | true =>
        cases hpf : project fromLL with
        | none => simp [makeCurvedRoute, hpf]
        | some pA =>
          cases hpt : project toLL with
          | none => simp [makeCurvedRoute, hpf, hpt]
          | some pB =>
            cases hfin : (finLL fromLL && finLL toLL
                && finLL (controlOf unproject sqrtFn pA pB)) with
            | true =>
              simp only [makeCurvedRoute, Bool.not_true, Bool.or_self,
                Bool.false_eq_true, if_false, hpf, hpt, hfin, if_true]
              constructor
              · intro hcontra
                exact absurd hcontra (by simp)
              · rintro (h | h | h | h | ⟨pA2, pB2, h1, h2, h3⟩)
                · exact absurd h (by simp)
                · exact absurd h (by simp)
                · exact absurd h (by simp)
                · exact absurd h (by simp)
                · rw [Option.some.inj h1] at hfin
                  rw [Option.some.inj h2] at hfin
                  rw [hfin] at h3
                  exact absurd h3 (by simp)
            | false =>
              simp only [makeCurvedRoute, Bool.not_true, Bool.or_self,
                Bool.false_eq_true, if_false, hpf, hpt, hfin]
              constructor
              · intro _
                exact Or.inr (Or.inr (Or.inr (Or.inr ⟨pA, pB, rfl, rfl, hfin⟩)))
              · intro _
                trivial
  · intro hprop pA pB hpf hpt hnf
    have hcl : finLL (controlOf unproject sqrtFn pA pB) = false :=
      hprop _ (jControlPoint_nonfinite sqrtFn pA pB hnf)
    cases hasCurve with
    | false => simp [makeCurvedRoute]
    | true =>
      cases mapLoaded with
      | false => simp [makeCurvedRoute]
      | true =>
        simp [makeCurvedRoute, hpf, hpt, hcl]

theorem dist_ne_zero (pA pB : QPoint) (d : ℚ) (hne : pA ≠ pB)
    (hdsq : d * d = (pB.x - pA.x) * (pB.x - pA.x) + (pB.y - pA.y) * (pB.y - pA.y)) :
    d ≠ 0 := by
  intro h0
  apply hne
  subst h0
  cases pA with
  | mk ax ay =>
    cases pB with
    | mk bx bY =>
      dsimp only at hdsq
      rw [QPoint.mk.injEq]
      constructor <;>
        nlinarith [mul_self_nonneg (bx - ax), mul_self_nonneg (bY - ay)]

theorem bendOf_ge40 (sqrtFn : ℚ → ℚ) (pA pB : QPoint) : 40 ≤ bendOf sqrtFn pA pB :=
  le_min (by norm_num) (le_max_left _ _)

theorem bendOf_le120 (sqrtFn : ℚ → ℚ) (pA pB : QPoint) : bendOf sqrtFn pA pB ≤ 120 :=
  min_le_left _ _

/-- C4: for distinct projected endpoints the bend is `0.15` times the
screen-space distance clamped to `[40, 120]`, and in particular always
lies in that interval. The hypotheses say that `d` is the true distance
(`d ≥ 0`, `d² = dx² + dy²`) and that `Math.sqrt` returned it. -/
theorem bend_is_clamped_scaled_distance (sqrtFn : ℚ → ℚ) (pA pB : QPoint) (d : ℚ)
    (hne : pA ≠ pB) (hd0 : 0 ≤ d)
    (hdsq : d * d = (pB.x - pA.x) * (pB.x - pA.x) + (pB.y - pA.y) * (pB.y - pA.y))
    (hs : sqrtFn ((pB.x - pA.x) * (pB.x - pA.x) + (pB.y - pA.y) * (pB.y - pA.y)) = d) :
    bendOf sqrtFn pA pB = min 120 (max 40 (d * (15 / 100)))
    ∧ 40 ≤ bendOf sqrtFn pA pB ∧ bendOf sqrtFn pA pB ≤ 120 := by
  have hd : d ≠ 0 := dist_ne_zero pA pB d hne hdsq
  have hlen : lenOf sqrtFn pA pB = d := by
    unfold lenOf
    rw [hs, if_neg hd]
  refine ⟨?_, bendOf_ge40 sqrtFn pA pB, bendOf_le120 sqrtFn pA pB⟩
  unfold bendOf
  rw [hlen]

/-- Witness for C4 at a concrete input: endpoints (0,0) and (3,4),
distance 5, bend `max(40, 0.75) = 40`. -/
theorem bend_is_clamped_scaled_distance_witness :
    bendOf (fun q => if q = 25 then 5 else 0) ⟨0, 0⟩ ⟨3, 4⟩
        = min 120 (max 40 ((5 : ℚ) * (15 / 100)))
    ∧ 40 ≤ bendOf (fun q => if q = 25 then 5 else 0) (⟨0, 0⟩ : QPoint) ⟨3, 4⟩
    ∧ bendOf (fun q => if q = 25 then 5 else 0) (⟨0, 0⟩ : QPoint) ⟨3, 4⟩ ≤ 120 :=
  bend_is_clamped_scaled_distance (fun q => if q = 25 then 5 else 0) ⟨0, 0⟩ ⟨3, 4⟩ 5
    (by decide) (by norm_num) (by norm_num) (by norm_num)

/-- C5: the control point is the screen-space midpoint plus a vector
perpendicular to the segment (its dot product with `pB - pA` is zero)
whose Euclidean length is exactly the computed bend. -/
theorem control_is_perpendicular_offset (sqrtFn : ℚ → ℚ) (pA pB : QPoint) (d : ℚ)
    (hne : pA ≠ pB) (hd0 : 0 ≤ d)
    (hdsq : d * d = (pB.x - pA.x) * (pB.x - pA.x) + (pB.y - pA.y) * (pB.y - pA.y))
    (hs : sqrtFn ((pB.x - pA.x) * (pB.x - pA.x) + (pB.y - pA.y) * (pB.y - pA.y)) = d) :
    ((controlPt sqrtFn pA pB).x - (pA.x + pB.x) / 2) * (pB.x - pA.x)
      + ((controlPt sqrtFn pA pB).y - (pA.y + pB.y) / 2) * (pB.y - pA.y) = 0
    ∧ Real.sqrt ((((controlPt sqrtFn pA pB).x - (pA.x + pB.x) / 2 : ℚ) : ℝ) ^ 2
        + (((controlPt sqrtFn pA pB).y - (pA.y + pB.y) / 2 : ℚ) : ℝ) ^ 2)
      = ((bendOf sqrtFn pA pB : ℚ) : ℝ) := by
  have hd : d ≠ 0 := dist_ne_zero pA pB d hne hdsq
  have hlen : lenOf sqrtFn pA pB = d := by
    unfold lenOf
    rw [hs, if_neg hd]
  have hox : (controlPt sqrtFn pA pB).x - (pA.x + pB.x) / 2
      = -(pB.y - pA.y) / d * bendOf sqrtFn pA pB := by
    unfold controlPt
    rw [hlen]
    ring
  have hoy : (controlPt sqrtFn pA pB).y - (pA.y + pB.y) / 2
      = (pB.x - pA.x) / d * bendOf sqrtFn pA pB := by
    unfold controlPt
    rw [hlen]
    ring
  have hb0 : (0 : ℚ) ≤ bendOf sqrtFn pA pB :=
    le_trans (by norm_num) (bendOf_ge40 sqrtFn pA pB)
  constructor
  · rw [hox, hoy]
    ring
  · rw [hox, hoy]
    have hdd : (pB.y - pA.y) ^ 2 + (pB.x - pA.x) ^ 2 = d ^ 2 := by
      rw [pow_two, pow_two, pow_two]
      linarith [hdsq]
    have hsq : (-(pB.y - pA.y) / d * bendOf sqrtFn pA pB) ^ 2
        + ((pB.x - pA.x) / d * bendOf sqrtFn pA pB) ^ 2
        = (bendOf sqrtFn pA pB) ^ 2 := by
      calc (-(pB.y - pA.y) / d * bendOf sqrtFn pA pB) ^ 2
            + ((pB.x - pA.x) / d * bendOf sqrtFn pA pB) ^ 2
          = ((pB.y - pA.y) ^ 2 + (pB.x - pA.x) ^ 2) / d ^ 2
              * bendOf sqrtFn pA pB ^ 2 := by ring
        _ = d ^ 2 / d ^ 2 * bendOf sqrtFn pA pB ^ 2 := by rw [hdd]
        _ = bendOf sqrtFn pA pB ^ 2 := by rw [div_self (pow_ne_zero 2 hd), one_mul]
    have hcast : ((-(pB.y - pA.y) / d * bendOf sqrtFn pA pB : ℚ) : ℝ) ^ 2
        + (((pB.x - pA.x) / d * bendOf sqrtFn pA pB : ℚ) : ℝ) ^ 2
        = ((bendOf sqrtFn pA pB : ℚ) : ℝ) ^ 2 := by
      exact_mod_cast congrArg (fun q : ℚ => (q : ℝ)) hsq
    rw [hcast]
    exact Real.sqrt_sq (by exact_mod_cast hb0)

/-- Witness for C5 at a concrete input: endpoints (0,0) and (3,4),
distance 5, bend 40, offset (-32, 24). -/
theorem control_is_perpendicular_offset_witness :
    ((controlPt (fun q => if q = 25 then 5 else 0) ⟨0, 0⟩ ⟨3, 4⟩).x
        - ((⟨0, 0⟩ : QPoint).x + (⟨3, 4⟩ : QPoint).x) / 2)
        * ((⟨3, 4⟩ : QPoint).x - (⟨0, 0⟩ : QPoint).x)
      + ((controlPt (fun q => if q = 25 then 5 else 0) ⟨0, 0⟩ ⟨3, 4⟩).y
        - ((⟨0, 0⟩ : QPoint).y + (⟨3, 4⟩ : QPoint).y) / 2)
        * ((⟨3, 4⟩ : QPoint).y - (⟨0, 0⟩ : QPoint).y) = 0
    ∧ Real.sqrt ((((controlPt (fun q => if q = 25 then 5 else 0) ⟨0, 0⟩ ⟨3, 4⟩).x
          - ((⟨0, 0⟩ : QPoint).x + (⟨3, 4⟩ : QPoint).x) / 2 : ℚ) : ℝ) ^ 2
        + (((controlPt (fun q => if q = 25 then 5 else 0) ⟨0, 0⟩ ⟨3, 4⟩).y
          - ((⟨0, 0⟩ : QPoint).y + (⟨3, 4⟩ : QPoint).y) / 2 : ℚ) : ℝ) ^ 2)
      = ((bendOf (fun q => if q = 25 then 5 else 0) ⟨0, 0⟩ ⟨3, 4⟩ : ℚ) : ℝ) :=
  control_is_perpendicular_offset (fun q => if q = 25 then 5 else 0) ⟨0, 0⟩ ⟨3, 4⟩ 5
    (by decide) (by norm_num) (by norm_num) (by norm_num)

end CC
